import Mathlib

/-!
Verification development for the `autoflake8` rewrite engine
(`autoflake8/fix.py`, `autoflake8/multiline.py`, `autoflake8/pending_fix.py`).

Python byte strings are modelled as `List Nat` (one entry per byte).
External collaborators (the pyflakes analyzer, the stdlib tokenizer and
`ast.literal_eval`) are modelled as explicit function parameters bundled
in `Ext`; everything else is translated directly from the source.
-/

namespace Autoflake8

/-- A Python `bytes` value: a list of byte values. -/
abbrev Bytes := List Nat

/-- Helper to write ASCII byte strings. -/
def bs (s : String) : Bytes := s.data.map Char.toNat

/-- Python whitespace bytes: ` \t\n\r\x0b\x0c` (this is `string.whitespace`,
the default `strip` set and the byte set matched by the regex class `\s`). -/
def isPyWs (b : Nat) : Bool :=
  b = 32 || b = 9 || b = 10 || b = 13 || b = 11 || b = 12

/-- Python word bytes, the regex class `\w` for bytes patterns. -/
def isWordByte (b : Nat) : Bool :=
  (48 ≤ b && b ≤ 57) || (65 ≤ b && b ≤ 90) || (97 ≤ b && b ≤ 122) || b = 95

/-- `bytes.lstrip()` with the default whitespace set. -/
def pyLstrip (l : Bytes) : Bytes := l.dropWhile isPyWs

/-- `bytes.rstrip()` with the default whitespace set. -/
def pyRstrip (l : Bytes) : Bytes := (l.reverse.dropWhile isPyWs).reverse

/-- `bytes.strip()` with the default whitespace set. -/
def pyStrip (l : Bytes) : Bytes := pyLstrip (pyRstrip l)

/-- `bytes.strip(set)` for an arbitrary byte set given as a predicate. -/
def stripSet (p : Nat → Bool) (l : Bytes) : Bytes :=
  ((l.dropWhile p).reverse.dropWhile p).reverse

/-- `b in line` for a single byte. -/
def containsByte (b : Nat) (l : Bytes) : Bool := l.contains b

/-- True when any of the bytes of `s` occurs in `l`
(`any(ch in line for ch in s)`). -/
def hasAnyByteOf (s : Bytes) (l : Bytes) : Bool := s.any (fun b => l.contains b)

/-- `bytes.count` of a single byte. -/
def countByte (b : Nat) (l : Bytes) : Nat := l.count b

/-- `bytes.find` of a single byte: index of first occurrence. -/
def findByte (b : Nat) (l : Bytes) : Option Nat := l.findIdx? (· = b)

/-- Substring containment test, `pat in text` for Python bytes. -/
def containsSeq (pat : Bytes) (text : Bytes) : Bool :=
  match text with
  | [] => pat = []
  | _ :: rest => pat.isPrefixOf text || containsSeq pat rest

/-- `bytes.splitlines(keepends=True)` worker.  For bytes the line
boundaries are `\n`, `\r\n` and `\r`. -/
def splitLinesAux : Bytes → Bytes → List Bytes
  | [], acc => if acc = [] then [] else [acc.reverse]
  | 13 :: 10 :: rest, acc => (acc.reverse ++ [13, 10]) :: splitLinesAux rest []
  | 10 :: rest, acc => (acc.reverse ++ [10]) :: splitLinesAux rest []
  | 13 :: rest, acc => (acc.reverse ++ [13]) :: splitLinesAux rest []
  | c :: rest, acc => splitLinesAux rest (c :: acc)

/-- `source.splitlines(keepends=True)`. -/
def splitLines (b : Bytes) : List Bytes := splitLinesAux b []

/-- Splitting with kept line endings is lossless: joining the lines
reproduces the original byte string. -/
theorem splitLinesAux_join (b acc : Bytes) :
    (splitLinesAux b acc).flatten = acc.reverse ++ b := by
  induction b, acc using splitLinesAux.induct <;> simp_all [splitLinesAux]

theorem splitLines_join (b : Bytes) : (splitLines b).flatten = b := by
  simpa using splitLinesAux_join b []

/-- `bytes.split(sep)` for a single-byte separator (drops the separators). -/
def splitOnByteAux (b : Nat) : Bytes → Bytes → List Bytes
  | [], acc => [acc.reverse]
  | c :: rest, acc =>
    if c = b then acc.reverse :: splitOnByteAux b rest []
    else splitOnByteAux b rest (c :: acc)

def splitOnByte (b : Nat) (l : Bytes) : List Bytes := splitOnByteAux b l []

/-- `get_line_ending` from `pending_fix.py`: the trailing whitespace run of
the line (empty when the line has no trailing whitespace). -/
def get_line_ending (line : Bytes) : Bytes :=
  let k := (pyRstrip line).length
  if k = line.length then [] else line.drop k

/-- `get_indentation` from `fix.py`: leading whitespace, or empty when the
line is blank. -/
def get_indentation (line : Bytes) : Bytes :=
  if pyStrip line ≠ [] then line.take (line.length - (pyLstrip line).length)
  else []

/-- Does `s` start with the word `w` followed by a word boundary?
(`w` itself starts and ends with word bytes for all patterns used here.) -/
def wordAtStart (w : Bytes) (s : Bytes) : Bool :=
  w.isPrefixOf s &&
    (match s.drop w.length with
     | [] => true
     | c :: _ => !isWordByte c)

/-- Index of the first word-bounded occurrence of `w` in `s`
(`re.search` of a pattern `\bw\b`).  `prevIsWord` tracks whether the byte
before the current position is a word byte. -/
def findWordBoundedAux (w : Bytes) : Bool → Bytes → Nat → Option Nat
  | _, [], _ => none
  | prevIsWord, c :: rest, i =>
    if !prevIsWord && wordAtStart w (c :: rest) then some i
    else findWordBoundedAux w (isWordByte c) rest (i + 1)

def findWordBounded (w : Bytes) (s : Bytes) : Option Nat :=
  findWordBoundedAux w false s 0

/-- `re.search(rb"\bw\b", s)` viewed as a boolean, used for the
`Regex.DEL` and `Regex.DUNDER_ALL` gates. -/
def searchWordBounded (w : Bytes) (s : Bytes) : Bool :=
  (findWordBounded w s).isSome

/-- `re.split(rb"\bimport\b", line, maxsplit=1)` unpacked to two parts.
When the keyword is absent Python raises on unpacking; the call sites in
the dispatcher only reach this with the keyword present, and we return
`(line, [])` in that unreachable case. -/
def splitImportKw (line : Bytes) : Bytes × Bytes :=
  match findWordBounded (bs ("import")) line with
  | none => (line, [])
  | some i => (line.take i, line.drop (i + 6))

/-- `Regex.IMPORT`/`FilterMultilineImport.IMPORT_RE`
(`\bimport\b\s*`) split into the part before the keyword and the part
after the keyword and its trailing whitespace. -/
def splitImportKwWs (line : Bytes) : Bytes × Bytes :=
  match findWordBounded (bs ("import")) line with
  | none => (line, [])
  | some i => (line.take i, (line.drop (i + 6)).dropWhile isPyWs)

/-- Lexicographic comparison of byte strings (Python `bytes` ordering). -/
def bytesLe : Bytes → Bytes → Bool
  | [], _ => true
  | _ :: _, [] => false
  | x :: xs, y :: ys => x < y || (x = y && bytesLe xs ys)

/-- Python `sorted` on a list of byte strings: a stable ascending sort
(insertion sort has exactly the `sorted` semantics). -/
def sortBytes (l : List Bytes) : List Bytes :=
  List.insertionSort (fun a b => bytesLe a b = true) l

/-- Python `sorted` on a list of line numbers. -/
def sortNat (l : List Nat) : List Nat := List.insertionSort (· ≤ ·) l

/-- `b", ".join(names)` and friends. -/
def joinWith (sep : Bytes) : List Bytes → Bytes
  | [] => []
  | [x] => x
  | x :: (y :: rest) => x ++ sep ++ joinWith sep (y :: rest)

/-- `Regex.STAR.sub(repl, line)`: replace every `*` byte. -/
def replaceStar (repl : Bytes) (line : Bytes) : Bytes :=
  (line.map (fun c => if c = 42 then repl else [c])).flatten

/-- Order-preserving deduplication, mirroring iteration over a Python
`frozenset`/`set` built from a list (only membership is ever used). -/
def dedupKeep : List Nat → List Nat
  | [] => []
  | x :: rest => if rest.contains x then dedupKeep rest else x :: dedupKeep rest

/-- Result of `ast.literal_eval` on a dict key expression.  Only the value
kinds needed by the development are represented. -/
inductive PyVal
  | intV (n : Int)
  | strV (s : Bytes)
  | boolV (b : Bool)
  | noneV
deriving DecidableEq

/-- A pyflakes message.  The analyzer is an external collaborator; the
message kinds mirror `pyflakes.messages` classes used by `fix.py`, each
carrying its `lineno` and `message_args` payload.  (The source recovers
the module name of an `UnusedImport` from the rendered message text with
the regex `'(.+?)'`; here the payload carries it directly.) -/
inductive Message
  | unusedImport (lineno : Nat) (moduleName : Bytes)
  | importStarUsed (lineno : Nat)
  | importStarUsage (lineno : Nat) (undefinedName : Bytes) (moduleName : Bytes)
  | unusedVariable (lineno : Nat)
  | repeatedKey (lineno : Nat) (key : PyVal)
deriving DecidableEq

/-- Token kinds of the stdlib `tokenize` module used by
`useless_pass_line_numbers`. -/
inductive TokType
  | NAME | NUMBER | STRING | OP | NEWLINE | NL | INDENT | DEDENT | COMMENT
  | ENDMARKER
deriving DecidableEq

/-- One token from `tokenize.generate_tokens`: its kind (`token[0]`),
start row (`token[2][0]`) and the physical line it lies on (`token[4]`). -/
structure Token where
  ttype : TokType
  startRow : Nat
  line : Bytes
deriving DecidableEq

/-- External collaborators, out of scope of the rewrite core:
`analyze` is `check()` (pyflakes), `tokens` is
`tokenize.generate_tokens` on a byte string (`none` models the raised
`SyntaxError`/`TokenError`), and `litEval` is `ast.literal_eval`
(`none` models a raised `SyntaxError`/`ValueError`). -/
structure Ext where
  analyze : Bytes → List Message
  tokens : Bytes → Option (List Token)
  litEval : Bytes → Option PyVal

/-- `unused_import_line_numbers`. -/
def unused_import_line_numbers (messages : List Message) : List Nat :=
  messages.filterMap fun m =>
    match m with
    | .unusedImport n _ => some n
    | _ => none

/-- `unused_import_module_name`. -/
def unused_import_module_name (messages : List Message) : List (Nat × Bytes) :=
  messages.filterMap fun m =>
    match m with
    | .unusedImport n mod => some (n, mod)
    | _ => none

/-- `star_import_used_line_numbers`. -/
def star_import_used_line_numbers (messages : List Message) : List Nat :=
  messages.filterMap fun m =>
    match m with
    | .importStarUsed n => some n
    | _ => none

/-- `star_import_usage_undefined_name`. -/
def star_import_usage_undefined_name (messages : List Message) :
    List (Nat × Bytes × Bytes) :=
  messages.filterMap fun m =>
    match m with
    | .importStarUsage n u mod => some (n, u, mod)
    | _ => none

/-- `unused_variable_line_numbers`. -/
def unused_variable_line_numbers (messages : List Message) : List Nat :=
  messages.filterMap fun m =>
    match m with
    | .unusedVariable n => some n
    | _ => none

/-- `is_multiline_statement`: a backslash, colon or semicolon in the line,
or the line fails to tokenize on its own, or the previous line ends with a
continuation backslash. -/
def is_multiline_statement (ext : Ext) (line : Bytes)
    (previous_line : Bytes := []) : Bool :=
  hasAnyByteOf (bs ("\\:;")) line ||
    (match ext.tokens line with
     | some _ => (pyRstrip previous_line).getLast? = some 92
     | none => true)

/-- `is_multiline_import`. -/
def is_multiline_import (ext : Ext) (line : Bytes)
    (previous_line : Bytes := []) : Bool :=
  containsByte 40 line || containsByte 41 line ||
    is_multiline_statement ext line previous_line

/-- `_filter_imports` from `multiline.py`: keep the imports whose fully
qualified name is not in the unused set. -/
def _filter_imports (imports : List Bytes) (parent : Option Bytes)
    (unused_module : List Bytes) : List Bytes :=
  let sep : Bytes :=
    match parent with
    | some p => if p.getLast? = some 46 then [] else [46]
    | none => [46]
  let full_name : Bytes → Bytes := fun name =>
    match parent with
    | none => name
    | some p => p ++ sep ++ name
  imports.filter (fun x => !unused_module.contains (full_name x))

/-- The capture of `Regex.BASE_MODULE` = `\bfrom\s+([^ ]+)` after a
matched `from`: greedy `\s+`, backtracking so that `[^ ]+` (any bytes
except the space byte) is nonempty. -/
def baseCaptureGo (s : Bytes) : Nat → Option Bytes
  | 0 => none
  | k + 1 =>
    let cap := (s.drop (k + 1)).takeWhile (· ≠ 32)
    if !cap.isEmpty then some cap else baseCaptureGo s k

def baseCaptureAt (s : Bytes) : Option Bytes :=
  baseCaptureGo s (s.takeWhile isPyWs).length

def baseModuleAux : Bool → Bytes → Option Bytes
  | _, [] => none
  | prevIsWord, c :: rest =>
    match (if !prevIsWord && (bs ("from")).isPrefixOf (c :: rest)
           then baseCaptureAt ((c :: rest).drop 4)
           else none) with
    | some cap => some cap
    | none => baseModuleAux (isWordByte c) rest

/-- `Regex.BASE_MODULE.search`, returning the captured base module. -/
def base_module_search (s : Bytes) : Option Bytes := baseModuleAux false s

/-- `re.split(rb"\s*,\s*", s.strip())`: split on commas, whitespace
around the commas (and the ends) removed. -/
def splitCommaStrip (s : Bytes) : List Bytes :=
  (splitOnByte 44 (pyStrip s)).map pyStrip

/-- `filter_from_import`. -/
def filter_from_import (line : Bytes) (unused_module : List Bytes) : Bytes :=
  let pieces := splitImportKw line
  let indentation := pieces.1
  let base_module := base_module_search indentation
  let filtered :=
    _filter_imports (splitCommaStrip pieces.2) base_module unused_module
  if filtered.isEmpty then
    get_indentation line ++ bs ("pass") ++ get_line_ending line
  else
    indentation ++ bs ("import ") ++
      joinWith (bs (", ")) (sortBytes filtered) ++ get_line_ending line

/-- `break_up_import`: one plain import statement per name.  The source
asserts the absence of `\ ( ) ; #` and of a leading `from`; the only call
site (`filter_unused_import` on a non-multiline, non-from line that
passed the dispatcher's comment check) guarantees those. -/
def break_up_import (line : Bytes) : Bytes :=
  let newline := get_line_ending line
  if newline.isEmpty then line
  else
    let pieces := splitImportKw line
    let ind := pieces.1 ++ bs ("import ")
    ((sortBytes (splitOnByte 44 pieces.2)).map
      (fun i => ind ++ pyStrip i ++ newline)).flatten

/-- Set-valued deduplication for byte strings (`set(...)`). -/
def dedupBytes : List Bytes → List Bytes
  | [] => []
  | x :: rest => if rest.contains x then dedupBytes rest else x :: dedupBytes rest

/-- `filter_star_import`: replace each `*` with the sorted,
comma-separated undefined names. -/
def filter_star_import (line : Bytes)
    (marked_star_import_undefined_name : List Bytes) : Bytes :=
  replaceStar
    (joinWith (bs (", ")) (sortBytes (dedupBytes marked_star_import_undefined_name)))
    line

/-- `filter_duplicate_key`: emit the empty string for the smallest marked
line number, keep every other line. -/
def filter_duplicate_key (line : Bytes) (line_number : Nat)
    (marked_line_numbers : List Nat) : Bytes :=
  if !marked_line_numbers.isEmpty &&
      (sortNat marked_line_numbers).headD 0 = line_number then []
  else line

/-- `re.match(rb"^\w+\s*$", value)` as a boolean. -/
def wordRunMatch (value : Bytes) : Bool :=
  let w := value.takeWhile isWordByte
  !w.isEmpty && (value.drop w.length).all isPyWs

/-- `is_literal_or_name`. -/
def is_literal_or_name (ext : Ext) (value : Bytes) : Bool :=
  (ext.litEval value).isSome ||
    [bs ("dict()"), bs ("list()"), bs ("set()")].contains (pyStrip value) ||
    wordRunMatch value

/-- Groups of `re.match(rb"\s*(.*)\s*:\s*(.*),\s*$", line)` for a line
without interior newline bytes (the callers split the source on `\n`
first): the line must end, after trailing whitespace, with a comma; the
key group runs from after the leading whitespace to the last colon before
that comma, the value group from after that colon and subsequent
whitespace up to the comma. -/
def dictShape (line : Bytes) : Option (Bytes × Bytes) :=
  let body := pyRstrip line
  match body.getLast? with
  | some 44 =>
    let body2 := body.dropLast
    match findByte 58 body2.reverse with
    | none => none
    | some j =>
      let p := body2.length - 1 - j
      let lead := (body2.takeWhile isPyWs).length
      let g1 := (body2.take p).drop lead
      let afterColon := body2.drop (p + 1)
      let g2 := afterColon.drop (afterColon.takeWhile isPyWs).length
      some (g1, g2)
  | _ => none

/-- `dict_entry_has_key`. -/
def dict_entry_has_key (ext : Ext) (line : Bytes) (key : PyVal) : Bool :=
  if containsByte 35 line then false
  else
    match dictShape line with
    | none => false
    | some (g1, g2) =>
      match ext.litEval g1 with
      | none => false
      | some candidate =>
        if is_multiline_statement ext g2 [] then false
        else candidate = key

/-- Distinct keys of the grouped messages, in first-appearance order
(`create_key_to_messages_dict` builds an insertion-ordered dict). -/
def distinctKeysAux (seen : List PyVal) : List (Nat × PyVal) → List PyVal
  | [] => []
  | (_, k) :: rest =>
    if seen.contains k then distinctKeysAux seen rest
    else k :: distinctKeysAux (k :: seen) rest

/-- `duplicate_key_line_numbers`: line numbers of duplicate-key messages
whose whole group passes `dict_entry_has_key` on each member line.
(`lines[lineno - 1]` is modelled with a default for the out-of-range case
on which Python would raise.) -/
def duplicate_key_line_numbers (ext : Ext) (messages : List Message)
    (source : Bytes) : List Nat :=
  let targets := messages.filterMap fun m =>
    match m with
    | .repeatedKey n k => some (n, k)
    | _ => none
  if messages.isEmpty then []
  else
    let lines := splitOnByte 10 source
    ((distinctKeysAux [] targets).map fun k =>
      let group := targets.filter (fun t => t.2 = k)
      if group.all (fun t => dict_entry_has_key ext (lines.getD (t.1 - 1) []) k)
      then group.map (·.1)
      else []).flatten

/-- Bytes allowed by the class `[\s,()\w]` of `Regex.EXCEPT`. -/
def isExceptClassByte (b : Nat) : Bool :=
  isPyWs b || b = 44 || b = 40 || b = 41 || isWordByte b

/-- Does `t` consist exactly of `" as "` followed by a nonempty word run
reaching the end of `t`? -/
def asWToEnd (t : Bytes) : Bool :=
  (bs (" as ")).isPrefixOf t &&
    (let w := t.drop 4
     !w.isEmpty && w.all isWordByte)

/-- Search for a decomposition `A ++ " as " ++ W` of `t` with `A` a
nonempty run of `[\s,()\w]` bytes and `W` a nonempty word run reaching
the end; `seenA` records whether at least one class byte has been
consumed. -/
def exceptScan : Bool → Bytes → Bool
  | _, [] => false
  | seenA, c :: rest =>
    (seenA && asWToEnd (c :: rest)) || (isExceptClassByte c && exceptScan true rest)

/-- `re.match(Regex.EXCEPT, line)` as a boolean
(`^\s*except [\s,()\w]+ as \w+:$`; `$` also matches just before a
trailing newline byte). -/
def except_match (line : Bytes) : Bool :=
  let body := if line.getLast? = some 10 then line.dropLast else line
  let afterWs := body.drop (body.takeWhile isPyWs).length
  (bs ("except ")).isPrefixOf afterWs &&
    (let mid := afterWs.drop 7
     match mid.getLast? with
     | some 58 => exceptScan false mid.dropLast
     | _ => false)

/-- Match of `rb" as \w+:$"` at the start of `t`: returns the word `w`
and the trailing newline remnant (`$` matches at the end or just before
one final newline byte, so the whole rest of `t` must be the word, the
colon and at most a final newline). -/
def asTail (t : Bytes) : Option (Bytes × Bytes) :=
  if (bs (" as ")).isPrefixOf t then
    match (t.drop 4).getLast? with
    | some 10 =>
      match (t.drop 4).dropLast.getLast? with
      | some 58 =>
        let w := (t.drop 4).dropLast.dropLast
        if !w.isEmpty && w.all isWordByte then some (w, [10]) else none
      | _ => none
    | some 58 =>
      let w := (t.drop 4).dropLast
      if !w.isEmpty && w.all isWordByte then some (w, []) else none
    | _ => none
  else none

/-- Leftmost match of `rb" as \w+:$"` in `line`:
the prefix before the match, the matched word and the newline remnant. -/
def subAsFind : Bytes → Option (Bytes × Bytes × Bytes)
  | [] => none
  | c :: rest =>
    match asTail (c :: rest) with
    | some (w, nl) => some ([], w, nl)
    | none => (subAsFind rest).map (fun p => (c :: p.1, p.2.1, p.2.2))

/-- `re.sub(rb" as \w+:$", b":", line, count=1)`. -/
def except_as_sub (line : Bytes) : Bytes :=
  match subAsFind line with
  | some (p, _, nl) => p ++ [58] ++ nl
  | none => line

/-- `filter_unused_variable`. -/
def filter_unused_variable (ext : Ext) (line : Bytes)
    (previous_line : Bytes := []) : Bytes :=
  if except_match line then except_as_sub line
  else if is_multiline_statement ext line previous_line then line
  else if countByte 61 line = 1 then
    let sl := splitOnByte 61 line
    let lhs := sl.getD 0 []
    let value0 := pyLstrip (sl.getD 1 [])
    if containsByte 44 lhs then line
    else
      let value :=
        if is_literal_or_name ext value0 then bs ("pass") ++ get_line_ending line
        else value0
      get_indentation line ++ value
  else line

/-- `bytes.replace(old, new)`: non-overlapping left-to-right replacement
(`old` is nonempty at every call site; the guard keeps the definition
total). -/
def replaceSeq (old new : Bytes) (s : Bytes) : Bytes :=
  match s with
  | [] => []
  | c :: rest =>
    if !old.isEmpty && old.isPrefixOf (c :: rest) then
      new ++ replaceSeq old new ((c :: rest).drop old.length)
    else c :: replaceSeq old new rest
termination_by s.length
decreasing_by
  · rename_i h
    have hlen : 0 < old.length := by
      cases old with
      | nil => simp at h
      | cons a as => simp
    simp only [List.length_drop, List.length_cons]
    omega
  · simp

/-- Byte class `[^,\s]` of `SEGMENT_RE` (an identifier byte). -/
def isSegIdentByte (b : Nat) : Bool := !(b = 44 || isPyWs b)

/-- Byte class `[\s\\]` of `SEGMENT_RE`. -/
def isWsOrBslash (b : Nat) : Bool := isPyWs b || b = 92

/-- Byte class `[,\s\\)]` of `SEGMENT_RE` (trailing separator bytes). -/
def isSegTrailByte (b : Nat) : Bool := b = 44 || isPyWs b || b = 92 || b = 41

/-- Largest index `j ≥ 1` of a backslash in `r` (backtracking target of
the second `[\s\\]+` of the optional as-clause). -/
def findLast92Pos (r : Bytes) : Option Nat :=
  match findByte 92 r.reverse with
  | none => none
  | some jr =>
    let j := r.length - 1 - jr
    if 1 ≤ j then some j else none

/-- Length matched by the optional group
`(?:[\s\\]+as[\s\\]+[^,\s]+)?` of `SEGMENT_RE` at the start of `t`,
with the regex engine's greedy/backtracking semantics, or `none` when the
group does not participate in the match. -/
def segAsClause (t : Bytes) : Option Nat :=
  let r1 := t.takeWhile isWsOrBslash
  if r1.isEmpty then none
  else
    let t1 := t.drop r1.length
    if (bs ("as")).isPrefixOf t1 then
      let t2 := t1.drop 2
      let r2 := t2.takeWhile isWsOrBslash
      if r2.isEmpty then none
      else
        let t3 := t2.drop r2.length
        let n := t3.takeWhile isSegIdentByte
        if !n.isEmpty then some (r1.length + 2 + r2.length + n.length)
        else
          -- `[^,\s]+` fails right after `r2`; the engine gives bytes of
          -- `r2` back until one of them (necessarily a backslash, the
          -- only byte in both classes) can start `[^,\s]+`.
          match findLast92Pos r2 with
          | some j =>
            some (r1.length + 2 + j + ((r2.drop j).takeWhile (· = 92)).length)
          | none => none
    else none

/-- Length of the full `SEGMENT_RE` match starting at `t` (the head of
`t` is an identifier byte): identifier run, optional as-clause, then the
greedy trailing run of `[,\s\\)]`. -/
def segLenAt (t : Bytes) : Nat :=
  let idn := t.takeWhile isSegIdentByte
  let t1 := t.drop idn.length
  let asLen := (segAsClause t1).getD 0
  let t2 := t1.drop asLen
  idn.length + asLen + (t2.takeWhile isSegTrailByte).length

theorem segLenAt_pos (c : Nat) (rest : Bytes) (h : isSegIdentByte c = true) :
    1 ≤ segLenAt (c :: rest) := by
  simp only [segLenAt, List.takeWhile_cons, h, if_true, List.length_cons]
  omega

/-- `SEGMENT_RE.findall`: scan left to right, skip bytes that cannot
start a match, emit each match. -/
def segFindall (t : Bytes) : List Bytes :=
  match t with
  | [] => []
  | c :: rest =>
    if h : isSegIdentByte c then
      let k := segLenAt (c :: rest)
      (c :: rest).take k :: segFindall ((c :: rest).drop k)
    else segFindall rest
termination_by t.length
decreasing_by
  · rename_i c
    have hk := segLenAt_pos c rest h
    simp only [List.length_drop, List.length_cons]
    omega
  · simp

/-- `_segment_module` from `multiline.py`. -/
def _segment_module (segment : Bytes) : Bytes :=
  let s := stripSet (fun b => isPyWs b || b = 44 || b = 92 || b = 40 || b = 41)
    segment
  if s.isEmpty then segment else s

/-- State of a `FilterMultilineImport` object: the constructor flags plus
the `PendingFix` accumulator of consumed line remainders (the first entry
is the part of the opening line after the `import` keyword). -/
structure FilterMultilineImport where
  remove : List Bytes
  parenthesized : Bool
  from_ : Bytes
  base : Option Bytes
  give_up : Bool
  accumulator : List Bytes
deriving DecidableEq

/-- The result the dispatcher sees from a rewrite helper: either a final
byte string or a pending multiline accumulation. -/
inductive FCResult
  | bytes (b : Bytes)
  | pending (st : FilterMultilineImport)
deriving DecidableEq

/-- `_valid_char_in_line`: the byte occurs in the line before any `#`. -/
def _valid_char_in_line (c : Nat) (line : Bytes) : Bool :=
  match findByte c line, findByte 35 line with
  | none, _ => false
  | some _, none => true
  | some ci, some hi => decide (ci < hi)

/-- `FilterMultilineImport.analyze`: give-up trigger bytes. -/
def fmiAnalyzeGiveUp (line : Bytes) : Bool := hasAnyByteOf (bs (";:#")) line

/-- `FilterMultilineImport.__init__`. -/
def fmiInit (line : Bytes) (unused_module : List Bytes)
    (previous_line : Bytes) : FilterMultilineImport :=
  let pieces := splitImportKwWs line
  { remove := unused_module
    parenthesized := containsByte 40 line
    from_ := pieces.1
    base := base_module_search pieces.1
    give_up := containsByte 92 previous_line || fmiAnalyzeGiveUp line
    accumulator := [pieces.2] }

/-- `FilterMultilineImport.is_over`. -/
def FilterMultilineImport.is_over (st : FilterMultilineImport)
    (line : Option Bytes := none) : Bool :=
  let l :=
    match line with
    | some x => if x.isEmpty then st.accumulator.getLastD [] else x
    | none => st.accumulator.getLastD []
  if st.parenthesized then _valid_char_in_line 41 l
  else !_valid_char_in_line 92 l

/-- `FilterMultilineImport.fix`. -/
def FilterMultilineImport.fix (st : FilterMultilineImport)
    (accumulated : List Bytes) : Bytes :=
  let old_imports := accumulated.flatten
  let ending := get_line_ending old_imports
  let segments := (segFindall old_imports).filter (fun x => !x.isEmpty)
  let modules := segments.map _segment_module
  let keep := _filter_imports modules st.base st.remove
  if keep.length = segments.length then
    st.from_ ++ bs ("import ") ++ accumulated.flatten
  else
    let fixed :=
      if !keep.isEmpty then
        let templates0 := modules.zip segments
        let templates :=
          templates0.take (keep.length - 1) ++
            templates0.drop (templates0.length - 1)
        let fixed0 :=
          (templates.enum.map
            (fun p => replaceSeq p.2.1 (keep.getD p.1 []) p.2.2)).flatten
        if st.parenthesized &&
            !(containsByte 40 fixed0 && containsByte 41 fixed0) then
          stripSet (fun b => isPyWs b || b = 40 || b = 41) fixed0 ++ ending
        else fixed0
      else []
    if (stripSet
          (fun b => isPyWs b || b = 92 || b = 40 || b = 41 || b = 44)
          fixed).length < 1 then
      st.from_.takeWhile isPyWs ++ bs ("pass") ++ ending
    else st.from_ ++ bs ("import ") ++ fixed

/-- `FilterMultilineImport.__call__`. -/
def FilterMultilineImport.call (st : FilterMultilineImport)
    (line : Option Bytes) : FCResult :=
  let st1 :=
    match line with
    | some l =>
      if !l.isEmpty then
        { st with
            accumulator := st.accumulator ++ [l]
            give_up := st.give_up || fmiAnalyzeGiveUp l }
      else st
    | none => st
  if !(st1.is_over line) then .pending st1
  else if st1.give_up then
    .bytes (st1.from_ ++ bs ("import ") ++ st1.accumulator.flatten)
  else .bytes (st1.fix st1.accumulator)

/-- `filter_unused_import`. -/
def filter_unused_import (ext : Ext) (line : Bytes)
    (unused_module : List Bytes) (previous_line : Bytes := []) : FCResult :=
  if (bs (">")).isPrefixOf (pyLstrip line) then .bytes line
  else if is_multiline_import ext line previous_line then
    (fmiInit line unused_module previous_line).call none
  else
    let is_from_import := (bs ("from")).isPrefixOf (pyLstrip line)
    if containsByte 44 line && !is_from_import then
      .bytes (break_up_import line)
    else if containsByte 44 line then
      .bytes (filter_from_import line unused_module)
    else
      .bytes (get_indentation line ++ bs ("pass") ++ get_line_ending line)

/-- Star-import bookkeeping of `filter_code` (its lines 281–301): the
marked star-import line numbers and the collected undefined names.
Expansion requires the option, the absence of word-bounded `__all__` and
`del` in the source, at most one distinct flagged line, and at least one
undefined name. -/
def starImportInfo (expand_star_imports : Bool) (source : Bytes)
    (messages : List Message) : List Nat × List Bytes :=
  if expand_star_imports && !(searchWordBounded (bs ("__all__")) source) &&
      !(searchWordBounded (bs ("del")) source) then
    let lines := dedupKeep (star_import_used_line_numbers messages)
    if lines.length > 1 then ([], [])
    else
      let undefined_names :=
        (star_import_usage_undefined_name messages).map (fun t => t.2.1)
      if undefined_names.isEmpty then ([], [])
      else (lines, undefined_names)
  else ([], [])

/-- The dispatcher's loop state: the previous iteration's `result`
value (`none` before the first line) and the previous line. -/
structure DispatchState where
  last : Option FCResult
  prev : Bytes
deriving DecidableEq

/-- One iteration of the `filter_code` loop body for line number `n`:
returns the new state and the byte strings emitted for this line. -/
def filter_code_step (ext : Ext) (marked_import : List Nat)
    (marked_unused_module : Nat → List Bytes) (marked_variable : List Nat)
    (marked_key : List Nat) (marked_star : List Nat)
    (undefined_names : List Bytes) (st : DispatchState) (n : Nat)
    (line : Bytes) : DispatchState × List Bytes :=
  let r : FCResult :=
    match st.last with
    | some (.pending f) => f.call (some line)
    | _ =>
      if containsByte 35 line then .bytes line
      else if marked_import.contains n then
        filter_unused_import ext line (marked_unused_module n) st.prev
      else if marked_variable.contains n then
        .bytes (filter_unused_variable ext line)
      else if marked_key.contains n then
        .bytes (filter_duplicate_key line n marked_key)
      else if marked_star.contains n then
        .bytes (filter_star_import line undefined_names)
      else .bytes line
  ({ last := some r, prev := line },
   match r with
   | .bytes b => [b]
   | .pending _ => [])

/-- `filter_code`: the list of byte strings yielded for `source`. -/
def filter_code (ext : Ext) (source : Bytes) (expand_star_imports : Bool)
    (remove_duplicate_keys : Bool) (remove_unused_variables : Bool) :
    List Bytes :=
  let messages := ext.analyze source
  let marked_import := unused_import_line_numbers messages
  let mum : Nat → List Bytes := fun n =>
    (unused_import_module_name messages).filterMap
      (fun p => if p.1 = n then some p.2 else none)
  let star := starImportInfo expand_star_imports source messages
  let mvar :=
    if remove_unused_variables then unused_variable_line_numbers messages
    else []
  let mkey :=
    if remove_duplicate_keys then duplicate_key_line_numbers ext messages source
    else []
  (((splitLines source).enum.foldl
      (fun acc p =>
        let out := filter_code_step ext marked_import mum mvar mkey star.1
          star.2 acc.1 (p.1 + 1) p.2
        (out.1, acc.2 ++ [out.2]))
      (⟨{ last := none, prev := [] }, []⟩ :
        DispatchState × List (List Bytes))).2).flatten

/-- `ATOMS` from `fix.py`. -/
def isAtomTok (t : TokType) : Bool := t = .NAME || t = .NUMBER || t = .STRING

/-- Loop state of `useless_pass_line_numbers`. -/
structure PassScanState where
  prevType : Option TokType
  lastPassRow : Option Nat
  lastPassInd : Option Bytes
  prevLine : Bytes
deriving DecidableEq

/-- One iteration of the `useless_pass_line_numbers` token loop:
yields the line numbers emitted for this token and the updated state. -/
def uselessPassStep (st : PassScanState) (tok : Token) :
    PassScanState × List Nat :=
  let is_pass := tok.ttype = TokType.NAME && pyStrip tok.line = bs ("pass")
  let lead : List Nat :=
    if st.lastPassRow = some (tok.startRow - 1) ∧
        st.lastPassInd = some (get_indentation tok.line) ∧
        isAtomTok tok.ttype ∧ is_pass = false
    then [tok.startRow - 1] else []
  let st1 :=
    if is_pass then
      { st with
          lastPassRow := some tok.startRow
          lastPassInd := some (get_indentation tok.line) }
    else st
  let trail : List Nat :=
    if is_pass ∧ st.prevType ≠ some TokType.INDENT ∧
        (pyRstrip st.prevLine).getLast? ≠ some 92
    then [tok.startRow] else []
  ({ st1 with prevType := some tok.ttype, prevLine := tok.line },
   lead ++ trail)

/-- `useless_pass_line_numbers` as a function of the token stream
produced by the external tokenizer. -/
def useless_pass_line_numbers (toks : List Token) : List Nat :=
  (toks.foldl
    (fun acc tok =>
      let out := uselessPassStep acc.1 tok
      (out.1, acc.2 ++ out.2))
    (⟨{ prevType := none, lastPassRow := none, lastPassInd := none,
        prevLine := [] }, []⟩ : PassScanState × List Nat)).2

/-- The marked line set of `filter_useless_pass` (the
`SyntaxError`/`TokenError` handler yields the empty set). -/
def uselessPassMarks (ext : Ext) (source : Bytes) : List Nat :=
  match ext.tokens source with
  | none => []
  | some toks => useless_pass_line_numbers toks

/-- `filter_useless_pass`: the lines of `source` whose line number is not
marked. -/
def filter_useless_pass (ext : Ext) (source : Bytes) : List Bytes :=
  let marked := uselessPassMarks ext source
  (splitLines source).enum.filterMap
    (fun p => if marked.contains (p.1 + 1) then none else some p.2)

/-- One iteration of the `fix_code` loop body: dispatcher then pruner,
results joined back to one byte string. -/
def pipelineOnce (ext : Ext) (esi rdk ruv : Bool) (src : Bytes) : Bytes :=
  (filter_useless_pass ext (filter_code ext src esi rdk ruv).flatten).flatten

/-- The `while True` loop of `fix_code`, with explicit fuel: `none` means
the loop has not stabilised within `fuel` iterations. -/
def fixLoop (ext : Ext) (esi rdk ruv : Bool) : Nat → Bytes → Option Bytes
  | 0, _ => none
  | fuel + 1, src =>
    let filtered := pipelineOnce ext esi rdk ruv src
    if filtered = src then some filtered
    else fixLoop ext esi rdk ruv fuel filtered

/-- `fix_code`: empty input returns immediately; a source containing the
byte sequence `nonlocal` disables unused-variable removal; then the
pipeline is iterated until it stabilises. -/
def fix_code (ext : Ext) (esi rdk ruv : Bool) (fuel : Nat)
    (source : Bytes) : Option Bytes :=
  if source.isEmpty then some source
  else
    let ruv2 := if containsSeq (bs ("nonlocal")) source then false else ruv
    fixLoop ext esi rdk ruv2 fuel source

/-! ## Theorems -/

theorem drop_takeWhile_length (p : Nat → Bool) (l : Bytes) :
    l.drop (l.takeWhile p).length = l.dropWhile p := by
  induction l with
  | nil => simp
  | cons c rest ih =>
    by_cases h : p c <;>
      simp [List.takeWhile_cons, List.dropWhile_cons, h, ih]

theorem head_dropWhile_false (p : Nat → Bool) (l : Bytes) (c : Nat)
    (h : (l.dropWhile p).head? = some c) : p c = false := by
  induction l with
  | nil => simp at h
  | cons a rest ih =>
    by_cases hp : p a
    · rw [List.dropWhile_cons_of_pos hp] at h
      exact ih h
    · rw [List.dropWhile_cons_of_neg hp] at h
      simp only [List.head?_cons, Option.some.injEq] at h
      subst h
      simpa using hp

/-- The byte after a maximal `SEGMENT_RE` trailing run can start a new
segment match. -/
theorem segIdent_of_not_trail (b : Nat) (h : isSegTrailByte b = false) :
    isSegIdentByte b = true := by
  simp only [isSegTrailByte, Bool.or_eq_false_iff] at h
  obtain ⟨⟨⟨h1, h2⟩, h3⟩, h4⟩ := h
  simp [isSegIdentByte, h1, h2]

theorem segLenAt_decomp (t : Bytes) :
    t.drop (segLenAt t) =
      (t.drop ((t.takeWhile isSegIdentByte).length +
          (segAsClause (t.drop (t.takeWhile isSegIdentByte).length)).getD 0)).dropWhile
        isSegTrailByte := by
  have h1 : segLenAt t =
      ((t.takeWhile isSegIdentByte).length +
          (segAsClause (t.drop (t.takeWhile isSegIdentByte).length)).getD 0) +
        ((t.drop ((t.takeWhile isSegIdentByte).length +
            (segAsClause (t.drop (t.takeWhile isSegIdentByte).length)).getD 0)).takeWhile
          isSegTrailByte).length := by
    simp only [segLenAt]
    rw [List.drop_drop]
  rw [h1, ← drop_takeWhile_length isSegTrailByte, List.drop_drop, Nat.add_comm]

theorem segFindall_head_after (t : Bytes) (d : Nat)
    (h : (t.drop (segLenAt t)).head? = some d) :
    isSegIdentByte d = true := by
  rw [segLenAt_decomp] at h
  exact segIdent_of_not_trail d (head_dropWhile_false _ _ _ h)

theorem segFindall_mem_ne_nil (t : Bytes) (s : Bytes)
    (hs : s ∈ segFindall t) : s ≠ [] := by
  induction t using segFindall.induct with
  | case1 => simp [segFindall] at hs
  | case2 c rest h k ih =>
    rw [segFindall] at hs
    simp only [h, if_true] at hs
    rcases List.mem_cons.mp hs with h1 | h2
    · subst h1
      have hk := segLenAt_pos c rest h
      intro hnil
      have := congrArg List.length hnil
      simp only [List.length_take, List.length_cons, List.length_nil] at this
      omega
    · exact ih h2
  | case3 c rest h ih =>
    rw [segFindall] at hs
    simp only [h] at hs
    exact ih hs

theorem segFindall_flatten_len :
    ∀ (n : Nat) (t : Bytes), t.length ≤ n →
      (∀ c, t.head? = some c → isSegIdentByte c = true) →
      (segFindall t).flatten = t := by
  intro n
  induction n with
  | zero =>
    intro t ht _
    have ht0 : t = [] := List.eq_nil_of_length_eq_zero (Nat.le_zero.mp ht)
    subst ht0
    simp [segFindall]
  | succ n ih =>
    intro t ht hh
    match t with
    | [] => simp [segFindall]
    | c :: rest =>
      have hc := hh c rfl
      rw [segFindall, dif_pos hc]
      simp only [List.flatten_cons]
      have hk := segLenAt_pos c rest hc
      have hlen : ((c :: rest).drop (segLenAt (c :: rest))).length ≤ n := by
        simp only [List.length_drop, List.length_cons]
        simp only [List.length_cons] at ht
        omega
      rw [ih _ hlen (fun d hd => segFindall_head_after (c :: rest) d hd)]
      exact List.take_append_drop _ _

theorem segFindall_flatten (t : Bytes)
    (h : ∀ c, t.head? = some c → isSegIdentByte c = true) :
    (segFindall t).flatten = t :=
  segFindall_flatten_len t.length t le_rfl h

/--
C5: concatenating the `ImportSegment`s produced by `SEGMENT_RE.findall`
(both before and after the `if x` filtering done in
`FilterMultilineImport.fix`) reproduces the accumulated import text
byte-for-byte, for any accumulated text whose first byte is an
identifier byte (the class `[^,\s]`) — which holds for every valid
remainder of an import statement, since the `IMPORT_RE` split removes
the whitespace after the `import` keyword.  Segmentation is lossless.
-/
theorem segment_reconstruction (t : Bytes)
    (h : ∀ c, t.head? = some c → isSegIdentByte c = true) :
    ((segFindall t).filter (fun x => !x.isEmpty)).flatten = t ∧
      (segFindall t).flatten = t := by
  have hflat := segFindall_flatten t h
  have hfilter : (segFindall t).filter (fun x => !x.isEmpty) = segFindall t := by
    apply List.filter_eq_self.mpr
    intro s hs
    have := segFindall_mem_ne_nil t s hs
    simpa [List.isEmpty_iff] using this
  rw [hfilter]
  exact ⟨hflat, hflat⟩

/-- Witness for C5 at the accumulated text of spec Scenario B. -/
theorem segment_reconstruction_witness :
    ((segFindall (bs ("(lib1, lib2, lib3,\n   lib4, lib5, lib6)\n"))).filter
        (fun x => !x.isEmpty)).flatten =
      bs ("(lib1, lib2, lib3,\n   lib4, lib5, lib6)\n") :=
  (segment_reconstruction (bs ("(lib1, lib2, lib3,\n   lib4, lib5, lib6)\n"))
    (by decide)).1

/--
C9: for the empty input text, `fix_code` returns the empty output
immediately: the result is `some []` even with zero loop fuel, i.e.
without running any pipeline iteration.
-/
theorem fix_code_empty_input (ext : Ext) (esi rdk ruv : Bool) (fuel : Nat) :
    fix_code ext esi rdk ruv fuel [] = some [] := by
  simp [fix_code]

/-- A minimal external environment for witnesses whose conclusion does
not consult the externals. -/
def extTrivial : Ext :=
  { analyze := fun _ => []
    tokens := fun _ => none
    litEval := fun _ => none }

/--
C10: `filter_unused_import` returns any line whose first non-whitespace
byte is `>` (a doctest prompt) unchanged — regardless of the recorded
unused-import modules, the previous line, and the external environment —
so such lines are never rewritten and never start an accumulation.
-/
theorem doctest_line_unchanged (ext : Ext) (line : Bytes)
    (unused_module : List Bytes) (previous_line : Bytes)
    (h : (pyLstrip line).head? = some 62) :
    filter_unused_import ext line unused_module previous_line =
      FCResult.bytes line := by
  unfold filter_unused_import
  have hpre : (bs (">")).isPrefixOf (pyLstrip line) = true := by
    cases hl : pyLstrip line with
    | nil => rw [hl] at h; simp at h
    | cons a as =>
      rw [hl] at h
      simp only [List.head?_cons, Option.some.injEq] at h
      subst h
      simp [bs, List.isPrefixOf]
  simp [hpre]

/-- Witness for C10 on a concrete doctest line. -/
theorem doctest_line_unchanged_witness :
    filter_unused_import extTrivial (bs ("    >>> import os\n"))
        [bs ("os")] [] =
      FCResult.bytes (bs ("    >>> import os\n")) :=
  doctest_line_unchanged extTrivial (bs ("    >>> import os\n"))
    [bs ("os")] [] (by decide)

/--
C8: in a dispatcher pass, a line containing the comment marker `#` that
is not being consumed by a pending multiline accumulator is emitted
unchanged, whatever diagnostics are recorded for its line number.
-/
theorem comment_line_passthrough (ext : Ext) (marked_import : List Nat)
    (marked_unused_module : Nat → List Bytes) (marked_variable : List Nat)
    (marked_key : List Nat) (marked_star : List Nat)
    (undefined_names : List Bytes) (st : DispatchState) (n : Nat)
    (line : Bytes)
    (hpend : ∀ f, st.last ≠ some (FCResult.pending f))
    (hcomment : containsByte 35 line = true) :
    (filter_code_step ext marked_import marked_unused_module marked_variable
        marked_key marked_star undefined_names st n line).2 = [line] := by
  unfold filter_code_step
  match hlast : st.last with
  | none => simp [hcomment]
  | some (.bytes b) => simp [hcomment]
  | some (.pending f) => exact absurd hlast (hpend f)

/-- Witness for C8: a comment line whose line number carries an
unused-import diagnostic is still passed through. -/
theorem comment_line_passthrough_witness :
    (filter_code_step extTrivial [1] (fun _ => [bs ("os")]) [1] [1] [1]
        [bs ("sin")] { last := none, prev := [] } 1
        (bs ("import os  # keep\n"))).2 =
      [bs ("import os  # keep\n")] :=
  comment_line_passthrough extTrivial [1] (fun _ => [bs ("os")]) [1] [1] [1]
    [bs ("sin")] { last := none, prev := [] } 1
    (bs ("import os  # keep\n")) (by intro f; simp) (by decide)

/-- `sorted(marked)[0]` is the minimum of a nonempty list. -/
theorem sortNat_headD_min_iff (marked : List Nat) (hne : marked ≠ [])
    (n : Nat) :
    ((sortNat marked).headD 0 = n) ↔ (n ∈ marked ∧ ∀ x ∈ marked, n ≤ x) := by
  have hperm : (sortNat marked).Perm marked := List.perm_insertionSort _ marked
  have hsorted : List.Sorted (· ≤ ·) (sortNat marked) :=
    List.sorted_insertionSort _ marked
  cases hs : sortNat marked with
  | nil =>
    rw [hs] at hperm
    exact absurd (hperm.symm.eq_nil) hne
  | cons a as =>
    rw [hs] at hperm hsorted
    simp only [List.headD_cons]
    have ha_mem : a ∈ marked := hperm.mem_iff.mp (List.mem_cons_self a as)
    have ha_le : ∀ x ∈ marked, a ≤ x := by
      intro x hx
      rcases List.mem_cons.mp (hperm.mem_iff.mpr hx) with h | h
      · omega
      · exact (List.sorted_cons.mp hsorted).1 x h
    constructor
    · rintro rfl
      exact ⟨ha_mem, ha_le⟩
    · rintro ⟨hmem, hall⟩
      have h1 : n ≤ a := hall a ha_mem
      have h2 : a ≤ n := ha_le n hmem
      omega

/--
C2 (amended): in a single dispatcher pass, `filter_duplicate_key`
deletes exactly the occurrence whose line number is the numerically
*smallest* of all marked duplicate-key line numbers, and returns every
other occurrence — including non-maximal ones — unchanged.  Only across
repeated fixpoint iterations does the last occurrence end up the sole
survivor.
-/
theorem duplicate_key_single_pass_deletes_min (line : Bytes) (n : Nat)
    (marked : List Nat) (hne : marked ≠ []) :
    filter_duplicate_key line n marked =
      (if n ∈ marked ∧ ∀ x ∈ marked, n ≤ x then [] else line) := by
  unfold filter_duplicate_key
  have hne2 : marked.isEmpty = false := by
    simpa [List.isEmpty_iff] using hne
  by_cases hmin : n ∈ marked ∧ ∀ x ∈ marked, n ≤ x
  · rw [if_pos hmin]
    have h1 := (sortNat_headD_min_iff marked hne n).mpr hmin
    simp only [hne2, Bool.not_false, Bool.true_and, decide_eq_true_eq]
    rw [if_pos h1]
  · rw [if_neg hmin]
    have h1 : ¬((sortNat marked).headD 0 = n) := fun hc =>
      hmin ((sortNat_headD_min_iff marked hne n).mp hc)
    simp only [hne2, Bool.not_false, Bool.true_and, decide_eq_true_eq]
    rw [if_neg h1]

/-- Witness for the amended C2 on a three-element group: only line 2
(the minimum) is deleted; line 3 is kept even though it is not the
maximum. -/
theorem duplicate_key_single_pass_deletes_min_witness :
    filter_duplicate_key (bs ("    \x22k\x22: 1,\n")) 2 [2, 3, 4] = [] ∧
    filter_duplicate_key (bs ("    \x22k\x22: 2,\n")) 3 [2, 3, 4] =
      bs ("    \x22k\x22: 2,\n") := by
  constructor
  · rw [duplicate_key_single_pass_deletes_min _ 2 [2, 3, 4] (by decide)]
    decide
  · rw [duplicate_key_single_pass_deletes_min _ 3 [2, 3, 4] (by decide)]
    decide

/-- The source text of the C2 counterexample: a dict literal with the
same simple-shaped key on lines 2, 3 and 4. -/
def srcC2 : Bytes :=
  bs ("a = \x7b\n    \x22k\x22: 1,\n    \x22k\x22: 2,\n    \x22k\x22: 3,\n\x7d\n")

/-- External environment for the C2 counterexample: pyflakes reports a
`MultiValueRepeatedKeyLiteral` for key `'k'` at lines 2, 3 and 4 of
`srcC2`; `ast.literal_eval` maps the key text to the string value; the
tokenizer accepts the single-byte value expressions. -/
def extC2 : Ext :=
  { analyze := fun b =>
      if b = srcC2 then
        [.repeatedKey 2 (.strV (bs ("k"))), .repeatedKey 3 (.strV (bs ("k"))),
         .repeatedKey 4 (.strV (bs ("k")))]
      else []
    tokens := fun b =>
      if b = bs ("1") || b = bs ("2") || b = bs ("3") then
        some [⟨.NUMBER, 1, b⟩, ⟨.NEWLINE, 1, b⟩, ⟨.ENDMARKER, 2, []⟩]
      else none
    litEval := fun b =>
      if b = bs ("\x22k\x22") then some (.strV (bs ("k"))) else none }

/--
Counterexample to C2 as stated: on a diagnosed duplicate-key group
`{2, 3, 4}` whose members all satisfy the simple-entry shape test, one
dispatcher pass deletes only line 2 (the minimum); line 3 survives even
though it is not the numerically greatest member, so the output differs
from the all-but-last-deleted text the claim predicts.
-/
theorem duplicate_key_single_pass_counterexample :
    (filter_code extC2 srcC2 false true false).flatten =
      bs ("a = \x7b\n    \x22k\x22: 2,\n    \x22k\x22: 3,\n\x7d\n") ∧
    (filter_code extC2 srcC2 false true false).flatten ≠
      bs ("a = \x7b\n    \x22k\x22: 3,\n\x7d\n") := by
  constructor
  · decide
  · decide

/-- External environment for spec Scenario D: pyflakes reports one
star-import usage at line 1 and one undefined name `sin` at line 2.
The tokenizer and `literal_eval` are never consulted on this path. -/
def extD : Ext :=
  { analyze := fun b =>
      if b = bs ("from math import *\nsin(1)\n") then
        [.importStarUsed 1, .importStarUsage 2 (bs ("sin")) (bs ("math"))]
      else []
    tokens := fun _ => none
    litEval := fun _ => none }

/--
C6: star-import expansion is attempted (the marked star-import line set
is nonempty) only when the option is enabled, the source contains no
word-bounded `__all__` and no word-bounded `del`, exactly one distinct
star-import line is flagged, and at least one undefined name was
collected; and on Scenario D the dispatcher replaces the `*` with the
sorted undefined names: `from math import *` becomes
`from math import sin`.
-/
theorem star_import_gating_and_scenario :
    (∀ (esi : Bool) (source : Bytes) (messages : List Message),
        (starImportInfo esi source messages).1 ≠ [] →
        esi = true ∧
        searchWordBounded (bs ("__all__")) source = false ∧
        searchWordBounded (bs ("del")) source = false ∧
        (dedupKeep (star_import_used_line_numbers messages)).length = 1 ∧
        (starImportInfo esi source messages).2 ≠ []) ∧
    (filter_code extD (bs ("from math import *\nsin(1)\n")) true false
        false).flatten =
      bs ("from math import sin\nsin(1)\n") := by
  constructor
  · intro esi source messages h
    revert h
    unfold starImportInfo
    by_cases e1 : esi = true
    · by_cases e2 : searchWordBounded (bs ("__all__")) source = true
      · simp [e1, e2]
      · by_cases e3 : searchWordBounded (bs ("del")) source = true
        · simp [e1, e2, e3]
        · rw [Bool.not_eq_true] at e2 e3
          simp only [e1, e2, e3, Bool.not_false, Bool.and_self, Bool.true_and,
            if_true]
          by_cases e4 :
              (dedupKeep (star_import_used_line_numbers messages)).length > 1
          · simp [e4]
          · by_cases e5 :
                ((star_import_usage_undefined_name messages).map
                  (fun t => t.2.1)).isEmpty = true
            · simp [e4, e5]
            · simp only [e4, e5, if_neg, if_false]
              intro hne
              refine ⟨trivial, trivial, trivial, ?_, ?_⟩
              · have hlen :
                    (dedupKeep (star_import_used_line_numbers messages)).length
                      ≠ 0 := by
                  simpa [List.length_eq_zero] using hne
                omega
              · simpa [List.isEmpty_iff] using e5
    · simp [e1]
  · decide

/-- Witness for C6's gating implication at the Scenario D input. -/
theorem star_import_gating_witness :
    searchWordBounded (bs ("__all__")) (bs ("from math import *\nsin(1)\n"))
        = false ∧
    (dedupKeep (star_import_used_line_numbers
        (extD.analyze (bs ("from math import *\nsin(1)\n"))))).length = 1 := by
  have h := star_import_gating_and_scenario.1 true
    (bs ("from math import *\nsin(1)\n"))
    (extD.analyze (bs ("from math import *\nsin(1)\n"))) (by decide)
  exact ⟨h.2.1, h.2.2.2.1⟩

theorem isPrefixOf_eq_append (p t : Bytes) (h : p.isPrefixOf t = true) :
    t = p ++ t.drop p.length :=
  (List.prefix_iff_eq_append.mp (List.isPrefixOf_iff_prefix.mp h)).symm

theorem asTail_sound (t w nl : Bytes) (h : asTail t = some (w, nl)) :
    t = bs (" as ") ++ w ++ [58] ++ nl ∧ w ≠ [] ∧ w.all isWordByte = true ∧
      (nl = [] ∨ nl = [10]) := by
  unfold asTail at h
  by_cases hp : (bs (" as ")).isPrefixOf t = true
  case neg => simp [hp] at h
  case pos =>
    have ht : t = bs (" as ") ++ t.drop 4 := by
      have h4 : (bs (" as ")).length = 4 := by decide
      have := isPrefixOf_eq_append _ _ hp
      rw [h4] at this
      exact this
    simp only [hp, if_true] at h
    split at h
    · rename_i h10
      split at h
      · rename_i h58
        split at h
        · rename_i hcond
          simp only [Option.some.injEq, Prod.mk.injEq] at h
          obtain ⟨hw, hnl⟩ := h
          obtain ⟨u1, hu1⟩ := List.getLast?_eq_some_iff.mp h10
          have hdl1 : (t.drop 4).dropLast = u1 := by
            rw [hu1, List.dropLast_concat]
          rw [hdl1] at h58 hcond hw
          obtain ⟨u2, hu2⟩ := List.getLast?_eq_some_iff.mp h58
          have hdl2 : u1.dropLast = u2 := by
            rw [hu2, List.dropLast_concat]
          rw [hdl2] at hcond hw
          subst hw
          subst hnl
          simp only [Bool.and_eq_true, Bool.not_eq_true'] at hcond
          refine ⟨?_, ?_, hcond.2, Or.inr rfl⟩
          · rw [ht, hu1, hu2]
            simp [List.append_assoc]
          · intro hnil
            rw [hnil] at hcond
            simp at hcond
        · simp at h
      · simp at h
    · rename_i h58
      split at h
      · rename_i hcond
        simp only [Option.some.injEq, Prod.mk.injEq] at h
        obtain ⟨hw, hnl⟩ := h
        obtain ⟨u1, hu1⟩ := List.getLast?_eq_some_iff.mp h58
        have hdl1 : (t.drop 4).dropLast = u1 := by
          rw [hu1, List.dropLast_concat]
        rw [hdl1] at hcond hw
        subst hw
        subst hnl
        simp only [Bool.and_eq_true, Bool.not_eq_true'] at hcond
        refine ⟨?_, ?_, hcond.2, Or.inl rfl⟩
        · rw [ht, hu1]
          simp [List.append_assoc]
        · intro hnil
          rw [hnil] at hcond
          simp at hcond
      · simp at h
    · simp at h

theorem asTail_complete (w nl : Bytes) (hw : w ≠ [])
    (hword : w.all isWordByte = true) (hnl : nl = [] ∨ nl = [10]) :
    asTail (bs (" as ") ++ w ++ [58] ++ nl) = some (w, nl) := by
  have hassoc : bs (" as ") ++ w ++ [58] ++ nl =
      bs (" as ") ++ (w ++ [58] ++ nl) := by
    simp [List.append_assoc]
  have hpre : (bs (" as ")).isPrefixOf (bs (" as ") ++ w ++ [58] ++ nl)
      = true := by
    rw [hassoc]
    exact List.isPrefixOf_iff_prefix.mpr (List.prefix_append _ _)
  have hdrop : (bs (" as ") ++ w ++ [58] ++ nl).drop 4 = w ++ [58] ++ nl := by
    rw [hassoc]
    have h4 : (bs (" as ")).length = 4 := by decide
    rw [← h4, List.drop_left]
  have hne : (!w.isEmpty && w.all isWordByte) = true := by
    simp only [Bool.and_eq_true, Bool.not_eq_true']
    exact ⟨by simpa [List.isEmpty_iff] using hw, hword⟩
  unfold asTail
  rw [if_pos hpre, hdrop]
  rcases hnl with rfl | rfl
  · simp only [List.append_nil, List.getLast?_concat, List.dropLast_concat]
    simp [hne]
  · simp only [List.getLast?_concat, List.dropLast_concat]
    simp [hne]

theorem subAsFind_isSome_of_asTail (t : Bytes) (q : Bytes × Bytes)
    (h : asTail t = some q) : (subAsFind t).isSome = true := by
  cases t with
  | nil =>
    rw [show asTail [] = none from by decide] at h
    simp at h
  | cons c rest =>
    obtain ⟨w, nl⟩ := q
    rw [subAsFind, h]
    simp

theorem subAsFind_isSome_cons (c : Nat) (rest : Bytes)
    (h : (subAsFind rest).isSome = true) :
    (subAsFind (c :: rest)).isSome = true := by
  rw [subAsFind]
  cases hat : asTail (c :: rest) with
  | some q =>
    obtain ⟨w, nl⟩ := q
    simp
  | none => simpa using h

theorem subAsFind_isSome_append (p t : Bytes)
    (h : (subAsFind t).isSome = true) :
    (subAsFind (p ++ t)).isSome = true := by
  induction p with
  | nil => simpa using h
  | cons c p ih => simpa using subAsFind_isSome_cons c (p ++ t) ih

theorem subAsFind_sound : ∀ (line p w nl : Bytes),
    subAsFind line = some (p, w, nl) →
    line = p ++ (bs (" as ") ++ w ++ [58] ++ nl) ∧ w ≠ [] ∧
      w.all isWordByte = true ∧ (nl = [] ∨ nl = [10]) := by
  intro line
  induction line with
  | nil => intro p w nl h; simp [subAsFind] at h
  | cons c rest ih =>
    intro p w nl h
    rw [subAsFind] at h
    cases hat : asTail (c :: rest) with
    | some q =>
      obtain ⟨w0, nl0⟩ := q
      rw [hat] at h
      simp only [Option.some.injEq, Prod.mk.injEq] at h
      rcases h with ⟨rfl, rfl, rfl⟩
      obtain ⟨hline, hwne, hword, hnlc⟩ := asTail_sound (c :: rest) w0 nl0 hat
      refine ⟨?_, hwne, hword, hnlc⟩
      rw [hline]
      simp [List.append_assoc]
    | none =>
      rw [hat] at h
      simp only [Option.map_eq_some'] at h
      obtain ⟨⟨p0, w0, nl0⟩, hfind0, hmap⟩ := h
      simp only [Prod.mk.injEq] at hmap
      obtain ⟨hp, hw, hnl⟩ := hmap
      subst hp
      subst hw
      subst hnl
      obtain ⟨hline, hwne, hword, hnlc⟩ := ih p0 w0 nl0 hfind0
      refine ⟨?_, hwne, hword, hnlc⟩
      rw [List.cons_append, hline]

theorem asWToEnd_sound (t : Bytes) (h : asWToEnd t = true) :
    ∃ w, t = bs (" as ") ++ w ∧ w ≠ [] ∧ w.all isWordByte = true := by
  unfold asWToEnd at h
  simp only [Bool.and_eq_true, Bool.not_eq_true'] at h
  obtain ⟨h1, h2⟩ := h
  refine ⟨t.drop 4, ?_, ?_, h2.2⟩
  · have h4 : (bs (" as ")).length = 4 := by decide
    have := isPrefixOf_eq_append _ _ h1
    rw [h4] at this
    exact this
  · intro hnil
    rw [hnil] at h2
    simp at h2

theorem exceptScan_decomp : ∀ (t : Bytes) (seen : Bool),
    exceptScan seen t = true → ∃ a b, t = a ++ b ∧ asWToEnd b = true := by
  intro t
  induction t with
  | nil => intro seen h; simp [exceptScan] at h
  | cons c rest ih =>
    intro seen h
    rw [exceptScan] at h
    simp only [Bool.or_eq_true, Bool.and_eq_true] at h
    rcases h with ⟨hseen, hasw⟩ | ⟨hclass, hscan⟩
    · exact ⟨[], c :: rest, rfl, hasw⟩
    · obtain ⟨a, b, hab, hb⟩ := ih true hscan
      exact ⟨c :: a, b, by rw [hab, List.cons_append], hb⟩

theorem except_core_decomp (u : Bytes)
    (hpre : (bs ("except ")).isPrefixOf u = true)
    (h58 : (u.drop 7).getLast? = some 58)
    (hscan : exceptScan false (u.drop 7).dropLast = true) :
    ∃ p w, u = p ++ (bs (" as ") ++ w ++ [58]) ∧ w ≠ [] ∧
      w.all isWordByte = true := by
  obtain ⟨m0, hm0⟩ := List.getLast?_eq_some_iff.mp h58
  have hdl : (u.drop 7).dropLast = m0 := by rw [hm0, List.dropLast_concat]
  rw [hdl] at hscan
  obtain ⟨a, b, hab, hb⟩ := exceptScan_decomp m0 false hscan
  obtain ⟨w, hbw, hwne, hword⟩ := asWToEnd_sound b hb
  have hu : u = bs ("except ") ++ u.drop 7 := by
    have h7 : (bs ("except ")).length = 7 := by decide
    have := isPrefixOf_eq_append _ _ hpre
    rw [h7] at this
    exact this
  refine ⟨bs ("except ") ++ a, w, ?_, hwne, hword⟩
  rw [hu, hm0, hab, hbw]
  simp [List.append_assoc]

theorem except_match_decomp (line : Bytes) (h : except_match line = true) :
    ∃ p w nl, line = p ++ (bs (" as ") ++ w ++ [58] ++ nl) ∧ w ≠ [] ∧
      w.all isWordByte = true ∧ (nl = [] ∨ nl = [10]) := by
  unfold except_match at h
  by_cases hl10 : line.getLast? = some 10
  · rw [if_pos hl10] at h
    simp only [Bool.and_eq_true] at h
    obtain ⟨hpre, hmatch⟩ := h
    split at hmatch
    · rename_i heq
      obtain ⟨p0, w, hu, hwne, hword⟩ :=
        except_core_decomp _ hpre heq hmatch
      have hline : line.dropLast ++ [10] = line :=
        List.dropLast_append_getLast? 10 hl10
      refine ⟨line.dropLast.take (line.dropLast.takeWhile isPyWs).length ++ p0,
        w, [10], ?_, hwne, hword, Or.inr rfl⟩
      rw [← hline]
      conv_lhs =>
        rw [← List.take_append_drop (line.dropLast.takeWhile isPyWs).length
          line.dropLast]
      rw [hu]
      simp [List.append_assoc]
    · simp at hmatch
  · rw [if_neg hl10] at h
    simp only [Bool.and_eq_true] at h
    obtain ⟨hpre, hmatch⟩ := h
    split at hmatch
    · rename_i heq
      obtain ⟨p0, w, hu, hwne, hword⟩ :=
        except_core_decomp _ hpre heq hmatch
      refine ⟨line.take (line.takeWhile isPyWs).length ++ p0, w, [], ?_, hwne,
        hword, Or.inl rfl⟩
      conv_lhs =>
        rw [← List.take_append_drop (line.takeWhile isPyWs).length line]
      rw [hu]
      simp [List.append_assoc]
    · simp at hmatch

theorem filter_unused_variable_except (ext : Ext) (line : Bytes)
    (h : except_match line = true) :
    ∃ p w nl, line = p ++ (bs (" as ") ++ w ++ [58] ++ nl) ∧ w ≠ [] ∧
      w.all isWordByte = true ∧ (nl = [] ∨ nl = [10]) ∧
      filter_unused_variable ext line = p ++ [58] ++ nl := by
  have hsome : (subAsFind line).isSome = true := by
    obtain ⟨p, w, nl, hline, hw, hword, hnl⟩ := except_match_decomp line h
    rw [hline]
    exact subAsFind_isSome_append p _
      (subAsFind_isSome_of_asTail _ (w, nl) (asTail_complete w nl hw hword hnl))
  obtain ⟨⟨p, w, nl⟩, hfind⟩ := Option.isSome_iff_exists.mp hsome
  obtain ⟨hline, hw, hword, hnl⟩ := subAsFind_sound line p w nl hfind
  refine ⟨p, w, nl, hline, hw, hword, hnl, ?_⟩
  unfold filter_unused_variable
  rw [if_pos h]
  unfold except_as_sub
  rw [hfind]

/--
C7: for a line flagged as an unused variable, the rewriter behaves as
specified: (1) a line with no `except ... as` match, no continuation
evidence, exactly one `=` and no comma in the assignment target is
collapsed to an indented `pass` with the line's trailing whitespace when
the right-hand side is classified a literal, bare name or empty
container constructor, and otherwise is replaced by the right-hand
expression alone at the original indentation with its original trailing
content; (2) a line matching `except ... as name:` has exactly its
` as name` binding deleted, preserving the clause and the line ending.
-/
theorem unused_variable_rewrite :
    (∀ (ext : Ext) (line : Bytes),
        except_match line = false →
        is_multiline_statement ext line [] = false →
        countByte 61 line = 1 →
        containsByte 44 ((splitOnByte 61 line).getD 0 []) = false →
        filter_unused_variable ext line =
          (if is_literal_or_name ext
              (pyLstrip ((splitOnByte 61 line).getD 1 [])) = true then
            get_indentation line ++ bs ("pass") ++ get_line_ending line
          else
            get_indentation line ++
              pyLstrip ((splitOnByte 61 line).getD 1 []))) ∧
    (∀ (ext : Ext) (line : Bytes),
        except_match line = true →
        ∃ p w nl, line = p ++ (bs (" as ") ++ w ++ [58] ++ nl) ∧ w ≠ [] ∧
          w.all isWordByte = true ∧ (nl = [] ∨ nl = [10]) ∧
          filter_unused_variable ext line = p ++ [58] ++ nl) := by
  constructor
  · intro ext line h1 h2 h3 h4
    unfold filter_unused_variable
    rw [if_neg (by simp [h1]), if_neg (by simp [h2]), if_pos h3,
      if_neg (by simpa using h4)]
    by_cases h5 : is_literal_or_name ext
        (pyLstrip ((splitOnByte 61 line).getD 1 [])) = true
    · rw [if_pos h5, if_pos h5]
      simp [List.append_assoc]
    · rw [if_neg h5, if_neg h5]
  · exact fun ext line h => filter_unused_variable_except ext line h

/-- External environment for the C7 witness: realistic tokenizer and
`literal_eval` entries for the one line each of them is consulted on. -/
def extW : Ext :=
  { analyze := fun _ => []
    tokens := fun b =>
      if b = bs ("    x = 1\n") then
        some [⟨.INDENT, 1, bs ("    x = 1\n")⟩, ⟨.NAME, 1, bs ("    x = 1\n")⟩,
          ⟨.OP, 1, bs ("    x = 1\n")⟩, ⟨.NUMBER, 1, bs ("    x = 1\n")⟩,
          ⟨.NEWLINE, 1, bs ("    x = 1\n")⟩, ⟨.DEDENT, 2, []⟩,
          ⟨.ENDMARKER, 2, []⟩]
      else none
    litEval := fun b => if b = bs ("1\n") then some (.intV 1) else none }

/-- Witness for C7: a literal assignment collapses to `pass`; an
`except ... as e:` line keeps the clause and loses only the binding. -/
theorem unused_variable_rewrite_witness :
    filter_unused_variable extW (bs ("    x = 1\n")) = bs ("    pass\n") ∧
    filter_unused_variable extW (bs ("    except OSError as e:\n")) =
      bs ("    except OSError:\n") := by
  constructor
  · have h := unused_variable_rewrite.1 extW (bs ("    x = 1\n"))
      (by decide) (by decide) (by decide) (by decide)
    rw [h]
    decide
  · decide

/-- Feeding successive physical lines into a pending accumulator, as the
dispatcher's loop does with a `PendingFix` result. -/
def fmiFeed (st : FilterMultilineImport) : List Bytes → FCResult
  | [] => .pending st
  | l :: ls =>
    match st.call (some l) with
    | .bytes b => .bytes b
    | .pending st2 => fmiFeed st2 ls

/-- What `__call__` appends for a consumed line. -/
def fmiAppended (st : FilterMultilineImport) (l : Bytes) :
    FilterMultilineImport :=
  if l.isEmpty then st
  else
    { st with
        accumulator := st.accumulator ++ [l]
        give_up := st.give_up || fmiAnalyzeGiveUp l }

theorem call_pending_state (st : FilterMultilineImport) (l : Bytes)
    (st2 : FilterMultilineImport)
    (h : st.call (some l) = FCResult.pending st2) : st2 = fmiAppended st l := by
  unfold FilterMultilineImport.call at h
  by_cases hl : l.isEmpty = true
  · simp only [hl, Bool.not_true, Bool.false_eq_true, if_false] at h
    split at h
    · simp only [FCResult.pending.injEq] at h
      rw [← h]
      simp [fmiAppended, hl]
    · split at h <;> simp at h
  · simp only [hl, Bool.not_false, if_true] at h
    split at h
    · simp only [FCResult.pending.injEq] at h
      rw [← h]
      simp [fmiAppended, hl]
    · split at h <;> simp at h

theorem call_bytes_give_up (st : FilterMultilineImport) (l : Bytes)
    (out : Bytes) (hgu : st.give_up = true)
    (h : st.call (some l) = FCResult.bytes out) :
    out = st.from_ ++ bs ("import ") ++ (fmiAppended st l).accumulator.flatten := by
  unfold FilterMultilineImport.call at h
  by_cases hl : l.isEmpty = true
  · simp only [hl, Bool.not_true, Bool.false_eq_true, if_false] at h
    split at h
    · simp at h
    · simp only [FCResult.bytes.injEq] at h
      rw [← h]
      simp [fmiAppended, hl]
  · simp only [hl, Bool.not_false, if_true] at h
    split at h
    · simp at h
    · rw [if_pos (show (st.give_up || fmiAnalyzeGiveUp l) = true by
        simp [hgu])] at h
      simp only [FCResult.bytes.injEq] at h
      rw [← h]
      simp [fmiAppended, hl]

theorem fmiAppended_from (st : FilterMultilineImport) (l : Bytes) :
    (fmiAppended st l).from_ = st.from_ := by
  unfold fmiAppended
  by_cases hl : l.isEmpty = true <;> simp [hl]

theorem fmiAppended_give_up (st : FilterMultilineImport) (l : Bytes)
    (h : st.give_up = true) : (fmiAppended st l).give_up = true := by
  unfold fmiAppended
  by_cases hl : l.isEmpty = true <;> simp [hl, h]

theorem fmiAppended_accumulator (st : FilterMultilineImport) (l : Bytes) :
    (fmiAppended st l).accumulator.flatten = (st.accumulator ++ [l]).flatten := by
  unfold fmiAppended
  by_cases hl : l.isEmpty = true
  · have : l = [] := by simpa [List.isEmpty_iff] using hl
    simp [hl, this]
  · simp [hl]

theorem fmiFeed_give_up_aux : ∀ (ls : List Bytes)
    (st : FilterMultilineImport) (out : Bytes), st.give_up = true →
    fmiFeed st ls = FCResult.bytes out →
    ∃ consumed rest, ls = consumed ++ rest ∧
      out = st.from_ ++ bs ("import ") ++ (st.accumulator ++ consumed).flatten := by
  intro ls
  induction ls with
  | nil =>
    intro st out hgu h
    simp [fmiFeed] at h
  | cons l ls ih =>
    intro st out hgu h
    rw [fmiFeed] at h
    cases hc : st.call (some l) with
    | bytes b =>
      rw [hc] at h
      simp only [FCResult.bytes.injEq] at h
      refine ⟨[l], ls, rfl, ?_⟩
      rw [← h]
      have := call_bytes_give_up st l b hgu hc
      rw [this, fmiAppended_accumulator]
    | pending st2 =>
      rw [hc] at h
      have hst2 := call_pending_state st l st2 hc
      subst hst2
      obtain ⟨consumed, rest, hls, hout⟩ :=
        ih (fmiAppended st l) out (fmiAppended_give_up st l hgu) h
      refine ⟨l :: consumed, rest, by simp [hls], ?_⟩
      rw [hout, fmiAppended_from]
      congr 1
      by_cases hl : l.isEmpty = true
      · have : l = [] := by simpa [List.isEmpty_iff] using hl
        simp [fmiAppended, hl, this]
      · simp [fmiAppended, hl]

/--
C3 (amended): the accumulator's give-up path.  (1) The give-up flag is
set at construction exactly when the previous line contains a backslash
or the opening line contains one of `; : #`, and any later consumed line
containing one of `; : #` sets it as well (it is part of
`fmiAppended`).  (2) With the flag set, the final emitted output is the
text before the `import` keyword, then the literal `import ` with one
space, then all accumulated line remainders — NOT necessarily the
original span.  (3) The output equals the original source span
character-for-character exactly when re-attaching `import ` with a
single space reproduces the opening line, i.e. when the keyword was
followed by exactly one space in the source.
-/
theorem multiline_give_up_fidelity :
    (∀ (line : Bytes) (um : List Bytes) (prev : Bytes),
        (fmiInit line um prev).give_up =
          (containsByte 92 prev || hasAnyByteOf (bs (";:#")) line)) ∧
    (∀ (st : FilterMultilineImport) (ls : List Bytes) (out : Bytes),
        st.give_up = true → fmiFeed st ls = FCResult.bytes out →
        ∃ consumed rest, ls = consumed ++ rest ∧
          out = st.from_ ++ bs ("import ") ++
            (st.accumulator ++ consumed).flatten) ∧
    (∀ (line : Bytes) (um : List Bytes) (prev : Bytes) (ls : List Bytes)
        (out : Bytes),
        (fmiInit line um prev).give_up = true →
        fmiFeed (fmiInit line um prev) ls = FCResult.bytes out →
        (splitImportKwWs line).1 ++ bs ("import ") ++ (splitImportKwWs line).2
            = line →
        ∃ consumed rest, ls = consumed ++ rest ∧
          out = line ++ consumed.flatten) := by
  refine ⟨fun line um prev => rfl,
    fun st ls out => fmiFeed_give_up_aux ls st out, ?_⟩
  intro line um prev ls out hgu hfeed hrecon
  obtain ⟨consumed, rest, hls, hout⟩ :=
    fmiFeed_give_up_aux ls (fmiInit line um prev) out hgu hfeed
  refine ⟨consumed, rest, hls, ?_⟩
  have h1 : (fmiInit line um prev).from_ = (splitImportKwWs line).1 := rfl
  have h2 : (fmiInit line um prev).accumulator = [(splitImportKwWs line).2] :=
    rfl
  rw [hout, h1, h2]
  conv_rhs => rw [← hrecon]
  simp [List.append_assoc]

/-- Witness for C3 (amended), on a give-up accumulation triggered by a
backslash in the previous line, where the opening line has exactly one
space after `import` and the output is therefore the untouched span. -/
theorem multiline_give_up_fidelity_witness :
    ∃ consumed rest, [bs ("b\n")] = consumed ++ rest ∧
      bs ("import a, \\\nb\n") = bs ("import a, \\\n") ++ consumed.flatten := by
  have h := multiline_give_up_fidelity.2.2 (bs ("import a, \\\n")) []
    (bs ("x = \\\n")) [bs ("b\n")] (bs ("import a, \\\nb\n"))
    (by decide) (by decide) (by decide)
  exact h

/--
Counterexample to C3 as stated: an accumulated import with two spaces
after the `import` keyword and a give-up trigger (the semicolon in the
closing line) is emitted with the whitespace after the keyword
normalised to a single space, so the output is NOT
character-for-character identical to the consumed source span.
-/
theorem multiline_give_up_counterexample :
    fmiFeed (fmiInit (bs ("from m import  (a,\n")) [] []) [bs ("b); x\n")] =
      FCResult.bytes (bs ("from m import (a,\nb); x\n")) ∧
    bs ("from m import (a,\nb); x\n") ≠
      bs ("from m import  (a,\n") ++ bs ("b); x\n") := by
  constructor
  · decide
  · decide

theorem starImportInfo_nil (esi : Bool) (source : Bytes) :
    starImportInfo esi source [] = ([], []) := by
  unfold starImportInfo
  split
  · simp [star_import_used_line_numbers, star_import_usage_undefined_name,
      dedupKeep]
  · rfl

theorem filter_code_step_plain (ext : Ext) (mum : Nat → List Bytes)
    (un : List Bytes) (st : DispatchState)
    (hst : ∀ f, st.last ≠ some (FCResult.pending f)) (n : Nat) (line : Bytes) :
    filter_code_step ext [] mum [] [] [] un st n line =
      ({ last := some (.bytes line), prev := line }, [line]) := by
  unfold filter_code_step
  match hl : st.last with
  | none => by_cases hc : containsByte 35 line = true <;> simp [hc]
  | some (.bytes b) => by_cases hc : containsByte 35 line = true <;> simp [hc]
  | some (.pending f) => exact absurd hl (hst f)

theorem filter_code_fold_plain (ext : Ext) (mum : Nat → List Bytes)
    (un : List Bytes) :
    ∀ (ls : List (Nat × Bytes)) (st : DispatchState)
      (acc : List (List Bytes)),
      (∀ f, st.last ≠ some (FCResult.pending f)) →
      (ls.foldl
        (fun a p =>
          let out := filter_code_step ext [] mum [] [] [] un a.1 (p.1 + 1) p.2
          (out.1, a.2 ++ [out.2]))
        (st, acc)).2 = acc ++ ls.map (fun p => [p.2]) := by
  intro ls
  induction ls with
  | nil => intro st acc hst; simp
  | cons p ls ih =>
    intro st acc hst
    simp only [List.foldl_cons]
    rw [filter_code_step_plain ext mum un st hst (p.1 + 1) p.2]
    rw [ih _ _ (by intro f; simp)]
    simp

theorem filter_code_no_messages (ext : Ext) (source : Bytes)
    (esi rdk ruv : Bool) (h : ext.analyze source = []) :
    (filter_code ext source esi rdk ruv).flatten = source := by
  simp only [filter_code, h]
  rw [show unused_import_line_numbers [] = [] from rfl]
  rw [starImportInfo_nil]
  rw [show (if ruv then unused_variable_line_numbers [] else []) = [] by
    cases ruv <;> rfl]
  rw [show (if rdk then duplicate_key_line_numbers ext [] source else []) = []
      by cases rdk <;> rfl]
  rw [filter_code_fold_plain ext _ _ (splitLines source).enum
    { last := none, prev := [] } [] (by intro f; simp)]
  simp only [List.nil_append]
  have hmap :
      ((splitLines source).enum.map (fun p => [p.2])).flatten =
        (splitLines source).enum.map (fun p => p.2) := by
    induction (splitLines source).enum with
    | nil => simp
    | cons q qs ihq => simp [ihq]
  rw [hmap, List.enum_map_snd, splitLines_join]

theorem filter_useless_pass_no_marks (ext : Ext) (source : Bytes)
    (h : uselessPassMarks ext source = []) :
    (filter_useless_pass ext source).flatten = source := by
  simp only [filter_useless_pass, h]
  have h3 : (fun (p : Nat × Bytes) =>
      if ([] : List Nat).contains (p.1 + 1) then (none : Option Bytes)
      else some p.2) = fun p => some p.2 := by
    funext p
    simp
  have h2 : ∀ (ls : List (Nat × Bytes)),
      ls.filterMap (fun p => some p.2) = ls.map (fun p => p.2) := by
    intro ls
    induction ls with
    | nil => rfl
    | cons q qs ih => simp [ih]
  rw [h3, h2, List.enum_map_snd, splitLines_join]

/--
C1 (amended): when the analyzer reports no diagnostics AND the
useless-`pass` pruner marks no lines, `fix_code` returns the input
byte-for-byte in one stabilised iteration.  The second condition is
necessary: the pruner runs inside the pipeline regardless of
diagnostics, so a diagnostic-free input containing a redundant `pass`
line is still rewritten (see the counterexample).
-/
theorem fix_code_no_diagnostics (ext : Ext) (esi rdk ruv : Bool) (fuel : Nat)
    (source : Bytes) (hd : ext.analyze source = [])
    (hp : uselessPassMarks ext source = []) :
    fix_code ext esi rdk ruv (fuel + 1) source = some source := by
  unfold fix_code
  by_cases hs : source.isEmpty = true
  · simp [hs]
  · rw [if_neg (by simpa using hs)]
    have hpipe : ∀ (ruv2 : Bool),
        pipelineOnce ext esi rdk ruv2 source = source := by
      intro ruv2
      unfold pipelineOnce
      rw [filter_code_no_messages ext source esi rdk ruv2 hd,
        filter_useless_pass_no_marks ext source hp]
    rw [fixLoop, hpipe]
    simp

/-- External environment for the C1 counterexample and witness:
pyflakes reports nothing on any input; the tokenizer tables carry the
CPython token streams of the two source texts involved. -/
def extC1 : Ext :=
  { analyze := fun _ => []
    tokens := fun b =>
      if b = bs ("x = 1\npass\n") then
        some [⟨.NAME, 1, bs ("x = 1\n")⟩, ⟨.OP, 1, bs ("x = 1\n")⟩,
          ⟨.NUMBER, 1, bs ("x = 1\n")⟩, ⟨.NEWLINE, 1, bs ("x = 1\n")⟩,
          ⟨.NAME, 2, bs ("pass\n")⟩, ⟨.NEWLINE, 2, bs ("pass\n")⟩,
          ⟨.ENDMARKER, 3, []⟩]
      else if b = bs ("x = 1\n") then
        some [⟨.NAME, 1, bs ("x = 1\n")⟩, ⟨.OP, 1, bs ("x = 1\n")⟩,
          ⟨.NUMBER, 1, bs ("x = 1\n")⟩, ⟨.NEWLINE, 1, bs ("x = 1\n")⟩,
          ⟨.ENDMARKER, 2, []⟩]
      else none
    litEval := fun _ => none }

/--
Counterexample to C1 as stated: on `x = 1\npass\n` the analyzer
(pyflakes) reports no diagnostics, yet `fix_code` removes the trailing
`pass` line through the useless-`pass` pruner, so the output is not
byte-identical to the input.
-/
theorem fix_code_no_diagnostics_counterexample :
    (∀ b, extC1.analyze b = []) ∧
    fix_code extC1 false false false 3 (bs ("x = 1\npass\n")) =
      some (bs ("x = 1\n")) ∧
    bs ("x = 1\n") ≠ bs ("x = 1\npass\n") := by
  refine ⟨fun b => rfl, by decide, by decide⟩

/-- Witness for the amended C1 on the diagnostic-free, `pass`-free text
`x = 1\n`. -/
theorem fix_code_no_diagnostics_witness :
    fix_code extC1 false false false 3 (bs ("x = 1\n")) =
      some (bs ("x = 1\n")) :=
  fix_code_no_diagnostics extC1 false false false 2 (bs ("x = 1\n")) rfl
    (by decide)

theorem fixLoop_fixpoint (ext : Ext) (esi rdk ruv : Bool) :
    ∀ (fuel : Nat) (src r : Bytes),
      fixLoop ext esi rdk ruv fuel src = some r →
      pipelineOnce ext esi rdk ruv r = r := by
  intro fuel
  induction fuel with
  | zero => intro src r h; simp [fixLoop] at h
  | succ fuel ih =>
    intro src r h
    rw [fixLoop] at h
    split at h
    · rename_i heq
      simp only [Option.some.injEq] at h
      rw [← h, heq]
      exact heq
    · exact ih _ r h

/--
C4 (amended): whenever `fix_code` stabilises on input `s` with output
`r`, re-running `fix_code` on `r` returns `r` — provided the
`nonlocal` gate does not flip between the two runs, i.e. when
`remove_unused_variables` is off, or when `r` contains the byte string
`nonlocal` exactly when `s` does.  The gate is evaluated against the
*original* text of each call before the loop, so a run that deletes the
only line containing `nonlocal` re-enables unused-variable removal on
the second call and idempotence can fail (see the counterexample).
-/
theorem fix_code_reapplication (ext : Ext) (esi rdk ruv : Bool)
    (fuel fuel2 : Nat) (s r : Bytes)
    (h : fix_code ext esi rdk ruv fuel s = some r)
    (hnl : ruv = false ∨
      containsSeq (bs ("nonlocal")) r = containsSeq (bs ("nonlocal")) s) :
    fix_code ext esi rdk ruv (fuel2 + 1) r = some r := by
  unfold fix_code at h ⊢
  by_cases hs : s.isEmpty = true
  · rw [if_pos hs] at h
    simp only [Option.some.injEq] at h
    subst h
    rw [if_pos hs]
  · rw [if_neg hs] at h
    by_cases hr : r.isEmpty = true
    · rw [if_pos hr]
    · rw [if_neg hr]
      have hfix := fixLoop_fixpoint ext esi rdk _ fuel s r h
      have hgate :
          (if containsSeq (bs ("nonlocal")) r then false else ruv) =
            (if containsSeq (bs ("nonlocal")) s then false else ruv) := by
        rcases hnl with hruv | hpres
        · rw [hruv]
          cases containsSeq (bs ("nonlocal")) r <;>
            cases containsSeq (bs ("nonlocal")) s <;> simp
        · rw [hpres]
      rw [hgate, fixLoop, hfix]
      simp

/-- The four byte strings of the C4 counterexample run. -/
def c4s1 : Bytes :=
  bs ("def f():\n    import nonlocal_helper\n    x = 1\n    return 0\n")

def c4s2 : Bytes := bs ("def f():\n    x = 1\n    return 0\n")

def c4s3 : Bytes := bs ("def f():\n    return 0\n")

def c4t1 : Bytes := bs ("def f():\n    pass\n    x = 1\n    return 0\n")

def c4t2 : Bytes := bs ("def f():\n    pass\n    return 0\n")

/-- External environment of the C4 counterexample: pyflakes reports the
unused import (line 2) and unused variable (line 3) on `c4s1`, the
unused variable (line 2) on `c4s2`, nothing on `c4s3`; the tokenizer
tables carry the CPython token streams of every text the pruner or
`is_multiline_statement` consults; `literal_eval` accepts `1`. -/
def extC4 : Ext :=
  { analyze := fun b =>
      if b = c4s1 then
        [.unusedImport 2 (bs ("nonlocal_helper")), .unusedVariable 3]
      else if b = c4s2 then [.unusedVariable 2]
      else []
    tokens := fun b =>
      if b = c4t1 then
        some [⟨.NAME, 1, bs ("def f():\n")⟩, ⟨.NAME, 1, bs ("def f():\n")⟩,
          ⟨.OP, 1, bs ("def f():\n")⟩, ⟨.OP, 1, bs ("def f():\n")⟩,
          ⟨.OP, 1, bs ("def f():\n")⟩, ⟨.NEWLINE, 1, bs ("def f():\n")⟩,
          ⟨.INDENT, 2, bs ("    pass\n")⟩, ⟨.NAME, 2, bs ("    pass\n")⟩,
          ⟨.NEWLINE, 2, bs ("    pass\n")⟩, ⟨.NAME, 3, bs ("    x = 1\n")⟩,
          ⟨.OP, 3, bs ("    x = 1\n")⟩, ⟨.NUMBER, 3, bs ("    x = 1\n")⟩,
          ⟨.NEWLINE, 3, bs ("    x = 1\n")⟩,
          ⟨.NAME, 4, bs ("    return 0\n")⟩,
          ⟨.NUMBER, 4, bs ("    return 0\n")⟩,
          ⟨.NEWLINE, 4, bs ("    return 0\n")⟩, ⟨.DEDENT, 5, []⟩,
          ⟨.ENDMARKER, 5, []⟩]
      else if b = c4s2 then
        some [⟨.NAME, 1, bs ("def f():\n")⟩, ⟨.NAME, 1, bs ("def f():\n")⟩,
          ⟨.OP, 1, bs ("def f():\n")⟩, ⟨.OP, 1, bs ("def f():\n")⟩,
          ⟨.OP, 1, bs ("def f():\n")⟩, ⟨.NEWLINE, 1, bs ("def f():\n")⟩,
          ⟨.INDENT, 2, bs ("    x = 1\n")⟩, ⟨.NAME, 2, bs ("    x = 1\n")⟩,
          ⟨.OP, 2, bs ("    x = 1\n")⟩, ⟨.NUMBER, 2, bs ("    x = 1\n")⟩,
          ⟨.NEWLINE, 2, bs ("    x = 1\n")⟩,
          ⟨.NAME, 3, bs ("    return 0\n")⟩,
          ⟨.NUMBER, 3, bs ("    return 0\n")⟩,
          ⟨.NEWLINE, 3, bs ("    return 0\n")⟩, ⟨.DEDENT, 4, []⟩,
          ⟨.ENDMARKER, 4, []⟩]
      else if b = c4t2 then
        some [⟨.NAME, 1, bs ("def f():\n")⟩, ⟨.NAME, 1, bs ("def f():\n")⟩,
          ⟨.OP, 1, bs ("def f():\n")⟩, ⟨.OP, 1, bs ("def f():\n")⟩,
          ⟨.OP, 1, bs ("def f():\n")⟩, ⟨.NEWLINE, 1, bs ("def f():\n")⟩,
          ⟨.INDENT, 2, bs ("    pass\n")⟩, ⟨.NAME, 2, bs ("    pass\n")⟩,
          ⟨.NEWLINE, 2, bs ("    pass\n")⟩,
          ⟨.NAME, 3, bs ("    return 0\n")⟩,
          ⟨.NUMBER, 3, bs ("    return 0\n")⟩,
          ⟨.NEWLINE, 3, bs ("    return 0\n")⟩, ⟨.DEDENT, 4, []⟩,
          ⟨.ENDMARKER, 4, []⟩]
      else if b = c4s3 then
        some [⟨.NAME, 1, bs ("def f():\n")⟩, ⟨.NAME, 1, bs ("def f():\n")⟩,
          ⟨.OP, 1, bs ("def f():\n")⟩, ⟨.OP, 1, bs ("def f():\n")⟩,
          ⟨.OP, 1, bs ("def f():\n")⟩, ⟨.NEWLINE, 1, bs ("def f():\n")⟩,
          ⟨.INDENT, 2, bs ("    return 0\n")⟩,
          ⟨.NAME, 2, bs ("    return 0\n")⟩,
          ⟨.NUMBER, 2, bs ("    return 0\n")⟩,
          ⟨.NEWLINE, 2, bs ("    return 0\n")⟩, ⟨.DEDENT, 3, []⟩,
          ⟨.ENDMARKER, 3, []⟩]
      else if b = bs ("    import nonlocal_helper\n") then
        some [⟨.INDENT, 1, bs ("    import nonlocal_helper\n")⟩,
          ⟨.NAME, 1, bs ("    import nonlocal_helper\n")⟩,
          ⟨.NAME, 1, bs ("    import nonlocal_helper\n")⟩,
          ⟨.NEWLINE, 1, bs ("    import nonlocal_helper\n")⟩,
          ⟨.DEDENT, 2, []⟩, ⟨.ENDMARKER, 2, []⟩]
      else if b = bs ("    x = 1\n") then
        some [⟨.INDENT, 1, bs ("    x = 1\n")⟩, ⟨.NAME, 1, bs ("    x = 1\n")⟩,
          ⟨.OP, 1, bs ("    x = 1\n")⟩, ⟨.NUMBER, 1, bs ("    x = 1\n")⟩,
          ⟨.NEWLINE, 1, bs ("    x = 1\n")⟩, ⟨.DEDENT, 2, []⟩,
          ⟨.ENDMARKER, 2, []⟩]
      else none
    litEval := fun b =>
      if b = bs ("1\n") then some (.intV 1) else none }

/--
Counterexample to C4 as stated: with unused-variable removal requested,
`fix_code` maps `c4s1` (whose only `nonlocal` occurrence sits in the
module name `nonlocal_helper` of an unused import) to `c4s2`; the
`nonlocal` gate disabled variable removal in the first call, but the
second call re-enables it because the output no longer contains
`nonlocal`, and `fix_code c4s2 = some c4s3 ≠ some c4s2`, so
`fix_code (fix_code s) ≠ fix_code s`.
-/
theorem fix_code_reapplication_counterexample :
    fix_code extC4 false false true 10 c4s1 = some c4s2 ∧
    fix_code extC4 false false true 10 c4s2 = some c4s3 ∧
    c4s3 ≠ c4s2 := by
  refine ⟨by decide, by decide, by decide⟩

/-- Witness for the amended C4: re-application with the gate stable
(`remove_unused_variables` off) returns the fixpoint unchanged. -/
theorem fix_code_reapplication_witness :
    fix_code extC1 false false false 1 (bs ("x = 1\n")) =
      some (bs ("x = 1\n")) :=
  fix_code_reapplication extC1 false false false 3 0 (bs ("x = 1\n"))
    (bs ("x = 1\n")) (by decide) (Or.inl rfl)

end Autoflake8